import Mathlib

/-!
Shallow embedding of the tree-view controller in
src/assets/app/js/nodeview.js (class NodeView), together with proofs about
its public operations: setRoot, toggle, redraw, resize, centerNode and
registerHandler (the method named on), and the render pass _update.

Modelling conventions:
- JavaScript identifiers on node records are either strings or numbers;
  we model them as JSId.  A JS object property access nodeData[id] coerces
  the id to a string, which JSId.key models.
- JS undefined for an optional field or argument is modelled as
  Option.none.
- The d3 library calls that nodeview.js delegates to (layout.tree().nodes,
  tree.links, selection.data with a key function) are modelled by their
  documented v3 semantics over our tree type: nodes is a preorder flatten
  over the children field, links pairs every node of the flatten with each
  of its children, and the keyed data join leaves exactly one element per
  distinct key (the first datum wins; duplicate-key data are dropped) and
  removes every element whose key is not among the new keys.
- DOM state is modelled by the lists of keys of the rendered g.node
  elements and path.link elements; zoom or pan transforms and animation
  timing (config.duration) affect no claim and are not modelled.
- Exceptions (reading a property of undefined, which raises TypeError)
  are modelled by an explicit threw flag or result constructor.
-/

/-- A JavaScript node identifier: a string or a number.  The counter
this.nextId produces numbers; host-supplied ids are typically strings. -/
inductive JSId where
  | str (s : String)
  | num (n : Int)
deriving DecidableEq, Repr

/-- JS truthiness of an identifier: the number 0 and the empty string are
falsy, every other string or number is truthy. -/
def JSId.truthy : JSId → Bool
  | .str s => s ≠ ""
  | .num n => n ≠ 0

/-- JS object-property coercion: nodeData[id] uses the string form of id,
so the registry is keyed by this string. -/
def JSId.key : JSId → String
  | .str s => s
  | .num n => toString n

/-- A node record as nodeview.js uses it: an id, layout coordinates x and
y (undefined until the layout has assigned them), the isOpened expansion
flag (undefined, i.e. false, until first toggled), the _children cache
written by toggle (absent means not yet fetched), and the children field
that the prune-nodes callback of the host populates and that the d3 tree layout
traverses.  The field _children is named uchildren here. -/
inductive NodeRecord where
  | mk (id : JSId) (x y : Option Int) (isOpened : Bool)
      (uchildren : Option (List NodeRecord)) (children : List NodeRecord)

/-- The identifier field of a record. -/
def NodeRecord.id : NodeRecord → JSId
  | .mk i _ _ _ _ _ => i

/-- The x field of a record. -/
def NodeRecord.x : NodeRecord → Option Int
  | .mk _ x _ _ _ _ => x

/-- The y field of a record. -/
def NodeRecord.y : NodeRecord → Option Int
  | .mk _ _ y _ _ _ => y

/-- The isOpened field of a record. -/
def NodeRecord.isOpened : NodeRecord → Bool
  | .mk _ _ _ o _ _ => o

/-- Accessor for the _children field of a record (the fetched cache). -/
def NodeRecord.uchildren : NodeRecord → Option (List NodeRecord)
  | .mk _ _ _ _ u _ => u

/-- The children field of a record (what the layout traverses). -/
def NodeRecord.children : NodeRecord → List NodeRecord
  | .mk _ _ _ _ _ cs => cs

/-- Write the _children field, as in this.nodeData[id]._children = cs. -/
def NodeRecord.setUchildren (r : NodeRecord) (u : Option (List NodeRecord)) :
    NodeRecord :=
  match r with
  | .mk i x y o _ cs => .mk i x y o u cs

/-- Write the isOpened field, as in this.nodeData[id].isOpened = b. -/
def NodeRecord.setOpened (r : NodeRecord) (b : Bool) : NodeRecord :=
  match r with
  | .mk i x y _ u cs => .mk i x y b u cs

/-- Write the id field, as the data-join key function does on a falsy id. -/
def NodeRecord.setId (r : NodeRecord) (i : JSId) : NodeRecord :=
  match r with
  | .mk _ x y o u cs => .mk i x y o u cs

/- The node list the d3 tree layout computes for a root:
this.tree.nodes(prunedRoot) is the preorder flatten over the children
field (the v3 hierarchy visits a node, then recurses into its
children). -/
mutual

/-- The node list d3 computes for one tree: the node, then the flattens
of its children in order. -/
def NodeRecord.nodes : NodeRecord → List NodeRecord
  | .mk i x y o u cs => .mk i x y o u cs :: nodesList cs

/-- The node lists of a forest of sibling subtrees, concatenated. -/
def nodesList : List NodeRecord → List NodeRecord
  | [] => []
  | t :: ts => t.nodes ++ nodesList ts

end

/-- A worklist formulation of the same preorder flatten, so that proofs
can recurse on one list; it equals nodesList (lemma below). -/
def flattenList : List NodeRecord → List NodeRecord
  | [] => []
  | .mk i x y o u cs :: rest =>
      .mk i x y o u cs :: flattenList (cs ++ rest)
termination_by l => sizeOf l
decreasing_by
  have h : ∀ (l1 l2 : List NodeRecord),
      sizeOf (l1 ++ l2) + 1 = sizeOf l1 + sizeOf l2 := by
    intro l1 l2
    induction l1 with
    | nil => simp; omega
    | cons a l ih => simp [List.cons.sizeOf_spec]; omega
  have h2 := h cs rest
  simp [List.cons.sizeOf_spec]
  omega

/-- The link list d3 computes: tree.links(nodes) pairs every node of the
laid-out list with each of its children (source, target). -/
def linkPairs (l : List NodeRecord) : List (NodeRecord × NodeRecord) :=
  l.flatMap (fun n => n.children.map (fun c => (n, c)))

/- The data-join key function of the render pass, applied to one laid-out
record: (d) => d.id || (d.id = this.nextId++).  A truthy id is used as the
key unchanged; a falsy id (0, the empty string, or absent) is overwritten
with the current counter value, which is then incremented.  assignId
applies it to a whole laid-out tree in the preorder in which d3 presents
the nodes array to selection.data. -/
mutual

/-- The key function applied to one laid-out subtree, threading nextId. -/
def assignId (n : Int) : NodeRecord → NodeRecord × Int
  | .mk i x y o u cs =>
      let i2 := if i.truthy then i else JSId.num n
      let n1 := if i.truthy then n else n + 1
      let p := assignIdL n1 cs
      (.mk i2 x y o u p.1, p.2)

/-- The key function over a list of sibling subtrees, threading the counter. -/
def assignIdL (n : Int) : List NodeRecord → List NodeRecord × Int
  | [] => ([], n)
  | c :: cs =>
      let p := assignId n c
      let q := assignIdL p.2 cs
      (p.1 :: q.1, q.2)
end

/-- Semantics of the keyed data join of d3 v3 selection.data: one element per
distinct key survives, in data order, first occurrence winning (a later
datum with an already-seen key is dropped); elements whose key is absent
from the data are removed.  The first argument accumulates keys already
seen. -/
def dedupFirstAux (seen : List String) : List String → List String
  | [] => []
  | k :: ks =>
      if k ∈ seen then dedupFirstAux seen ks
      else k :: dedupFirstAux (k :: seen) ks

/-- The keys of the elements left by a keyed data join over the given
data keys. -/
def dedupFirst (ks : List String) : List String :=
  dedupFirstAux [] ks

/-- The two orientation strategies of NodeView.orientation. -/
inductive Orient where
  | topToBottom
  | leftToRight
deriving DecidableEq, Repr

/-- Static orientation(orientKey): returns the accessor pair for the two
known keys and undefined (none) for every other string. -/
def NodeView.orientation (orientKey : String) : Option Orient :=
  if orientKey = "top-to-bottom" then some Orient.topToBottom
  else if orientKey = "left-to-right" then some Orient.leftToRight
  else none

/-- The x accessor of the resolved orientation strategy (this.x). -/
def Orient.ax : Orient → NodeRecord → Option Int
  | .topToBottom, r => r.x
  | .leftToRight, r => r.y

/-- The y accessor of the resolved orientation strategy (this.y). -/
def Orient.ay : Orient → NodeRecord → Option Int
  | .topToBottom, r => r.y
  | .leftToRight, r => r.x

/-- The configuration object handed to the constructor.  selector and
duration affect only the DOM mount point and animation timing, which no
claim depends on, and are omitted. -/
structure Config where
  orientation : String
  nodeWidth : Int
  nodeHeight : Int
deriving DecidableEq, Repr

/-- The mutable per-instance state of a NodeView: the counter nextId, the
registry this.nodeData keyed by the JS property key of the id, the current
root id this.currentId (none until setRoot succeeds), the resolved
orientation strategy (none when config.orientation is invalid), the keys
of the rendered g.node and path.link elements, and the layout spacing set
by this.tree.nodeSize. -/
structure NVState where
  nextId : Int
  nodeData : List (String × NodeRecord)
  currentId : Option JSId
  orientation : Option Orient
  renderedNodes : List String
  renderedLinks : List String
  nodeWidth : Int
  nodeHeight : Int

/-- Registry lookup nodeData[i]: undefined when i is undefined (no record
is keyed by the string undefined) or when the key is absent. -/
def regLookup (l : List (String × NodeRecord)) : Option JSId → Option NodeRecord
  | none => none
  | some i =>
      match l.find? (fun p => p.1 = i.key) with
      | some p => some p.2
      | none => none

/-- Registry store nodeData[k] = r: replaces the binding if the key is
present (JS keeps the property position), otherwise appends it. -/
def regInsert (l : List (String × NodeRecord)) (k : String) (r : NodeRecord) :
    List (String × NodeRecord) :=
  if l.any (fun p => p.1 = k) then
    l.map (fun p => if p.1 = k then (k, r) else p)
  else l ++ [(k, r)]

/-- The keys present in the registry. -/
def regKeys (l : List (String × NodeRecord)) : List String :=
  l.map Prod.fst

/-- Static _pos(node): reads node.x || 0 and node.y || 0. -/
def NodeView.pos (r : NodeRecord) : Int × Int :=
  ((r.x).getD 0, (r.y).getD 0)

/-- The JS expression toggleId || this.currentId: the left value when it
is defined and truthy, otherwise the right value. -/
def jsOrId (a b : Option JSId) : Option JSId :=
  match a with
  | some i => if i.truthy then some i else b
  | none => b

/-- JS truthiness of this.currentId as redraw tests it: false when
undefined and false when the id itself is falsy (0 or the empty string). -/
def jsTruthy : Option JSId → Bool
  | some i => i.truthy
  | none => false

/-- What a render pass reports besides the new state: the root id it was
invoked with, the reference position captured before the layout (prevPos),
the tree handed to the layout (the prune-nodes result, before the data
join touched any id), and the laid-out node list after the key function
ran over it. -/
structure RenderInfo where
  rootId : Option JSId
  prevPos : Int × Int
  pruned : Option NodeRecord
  laid : List NodeRecord

/-- Result of _update: the state after the pass, whether it threw, and
the render information when it completed. -/
structure UpdOut where
  state : NVState
  threw : Bool
  info : Option RenderInfo

/- _update(rootId, toggleId), lines 124-152.  Reads the reference record
nodeData[toggleId || currentId] (throwing when it is undefined, since
_pos reads .x of it), captures its position, sets currentId := rootId,
asks prune-nodes for the tree to lay out, flattens it (or uses the empty
list), runs the keyed data join for nodes (whose key function assigns
fresh ids to falsy ones and advances nextId) and for links (keyed by the
target id), and stores the surviving element keys.  When the orientation
strategy is undefined and any element has to be positioned, the transform
attribute callbacks read .x of undefined and the pass throws; the throw
happens after the key function already advanced nextId, and the partially
reconciled element sets are left as they were before the pass. -/

/-- The laid-out node list of a render pass, with the advanced counter:
this.tree.nodes(prunedRoot) when prune-nodes returned a tree (with the
data-join key function run over it in presentation order), the empty list
otherwise (line 135), starting from the counter of the given state. -/
def laidList (nextId : Int) (prunedRoot : Option NodeRecord) :
    List NodeRecord × Int :=
  match prunedRoot with
  | some t => let p := assignId nextId t; (p.1.nodes, p.2)
  | none => ([], nextId)

/-- The keys of the g.node elements left by the node data join. -/
def nodeKeysOf (laid : List NodeRecord) : List String :=
  dedupFirst (laid.map (fun r => JSId.key r.id))

/-- The keys of the path.link elements left by the link data join, keyed
by (d) => d.target.id. -/
def linkKeysOf (laid : List NodeRecord) : List String :=
  dedupFirst ((linkPairs laid).map (fun p => JSId.key p.2.id))

/-- The completed render pass: currentId updated, the counter advanced by
the key function, and the element sets reconciled to the laid-out data. -/
def renderOk (s : NVState) (rootId : Option JSId) (prevPos : Int × Int)
    (prunedRoot : Option NodeRecord) : UpdOut :=
  let lp := laidList s.nextId prunedRoot
  let s2 := { s with currentId := rootId, nextId := lp.2 }
  let s3 := { s2 with renderedNodes := nodeKeysOf lp.1, renderedLinks := linkKeysOf lp.1 }
  ⟨s3, false, some ⟨rootId, prevPos, prunedRoot, lp.1⟩⟩

/-- Render pass _update(rootId, toggleId); see the comment block above laidList. -/
def NodeView.updateView (prune : Option NodeRecord → Option NodeRecord)
    (s : NVState) (rootId toggleId : Option JSId) : UpdOut :=
  match regLookup s.nodeData (jsOrId toggleId s.currentId) with
  | none => ⟨s, true, none⟩
  | some refRec =>
      let prevPos := NodeView.pos refRec
      let prunedRoot := prune (regLookup s.nodeData rootId)
      let lp := laidList s.nextId prunedRoot
      let anyElems :=
        !lp.1.isEmpty || !s.renderedNodes.isEmpty || !s.renderedLinks.isEmpty
      if s.orientation.isNone && anyElems then
        ⟨{ s with currentId := rootId, nextId := lp.2 }, true, none⟩
      else
        renderOk s rootId prevPos prunedRoot

/-- The method reload() as run by the constructor: fresh counter, orientation
resolved from the configuration string, an empty registry, a cleared
surface (no rendered elements), and the configured node spacing.
this.currentId is not a field reload touches; from the constructor it has
never been assigned, so the fresh state has none. -/
def NodeView.reload (cfg : Config) : NVState :=
  { nextId := 0
  , nodeData := []
  , currentId := none
  , orientation := NodeView.orientation cfg.orientation
  , renderedNodes := []
  , renderedLinks := []
  , nodeWidth := cfg.nodeWidth
  , nodeHeight := cfg.nodeHeight }

/-- The method reload() invoked again on a live instance (reinitialization): every
field reload assigns is reset, but this.currentId keeps its value, since
reload never writes it. -/
def NodeView.reloadOn (cfg : Config) (s : NVState) : NVState :=
  { NodeView.reload cfg with currentId := s.currentId }

/-- The method setRoot(root), lines 77-86: undefined root is a no-op; otherwise the
root is stored under its id, made current, and a render pass is run
rooted at it. -/
def NodeView.setRoot (prune : Option NodeRecord → Option NodeRecord)
    (s : NVState) (root : Option NodeRecord) : UpdOut :=
  match root with
  | none => ⟨s, false, none⟩
  | some r =>
      let nd := regInsert s.nodeData r.id.key r
      let s1 := { s with nodeData := nd, currentId := some r.id }
      NodeView.updateView prune s1 (some r.id) none

/-- Outcome of one invocation of toggle(id): it threw (the registry has
no record at id, so reading ._children of undefined raises TypeError), it
entered the fetch branch (this.handlers with key get-children was invoked
exactly once and the invocation returned, all state changes deferred to
the resolution handler), or it flipped the isOpened flag of the record and ran
a render pass (the UpdOut). -/
inductive ToggleRes where
  | threw (s : NVState)
  | fetching (s : NVState)
  | flipped (out : UpdOut)

/-- The state after the synchronous part of the toggle invocation. -/
def ToggleRes.finalState : ToggleRes → NVState
  | .threw s => s
  | .fetching s => s
  | .flipped out => out.state

/-- How many times the toggle invocation called the get-children handler:
once in the fetch branch, never otherwise. -/
def ToggleRes.fetchCalls : ToggleRes → Nat
  | .fetching _ => 1
  | _ => 0

/-- The render information of the pass the invocation ran, if any. -/
def ToggleRes.rendered : ToggleRes → Option RenderInfo
  | .flipped out => out.info
  | _ => none

/-- The in-place flag negation of the else branch of toggle, line 103:
nodeData[id].isOpened = not nodeData[id].isOpened, where rec is the record
found at id. -/
def flipState (s : NVState) (id : JSId) (rec : NodeRecord) : NVState :=
  { s with nodeData := regInsert s.nodeData id.key (rec.setOpened (!rec.isOpened)) }

/-- The method toggle(id), lines 88-106.  With _children undefined the fetch branch
runs (the asynchronous resolution is modelled separately by
resolveChildren); with _children present isOpened is negated in place and
_update(this.currentId, id) runs. -/
def NodeView.toggle1 (prune : Option NodeRecord → Option NodeRecord)
    (s : NVState) (id : JSId) : ToggleRes :=
  match regLookup s.nodeData (some id) with
  | none => .threw s
  | some rec =>
      match rec.uchildren with
      | none => .fetching s
      | some _ =>
          .flipped (NodeView.updateView prune (flipState s id rec)
            s.currentId (some id))

/-- Outcome of the resolution handler of the fetch started by toggle(id):
the future resolved to undefined and nothing happened, or the handler
threw (the registry entry disappeared before resolution), or the children
were stored, the _children field of the parent entry was set, and toggle(id) was
re-invoked, with the given second outcome. -/
inductive ResolveRes where
  | noData (s : NVState)
  | threw (s : NVState)
  | done (s : NVState) (second : ToggleRes)

/-- The state after the resolution handler ran to completion. -/
def ResolveRes.finalState : ResolveRes → NVState
  | .noData s => s
  | .threw s => s
  | .done _ second => second.finalState

/-- The loop of the resolution handler, lines 95-97: each fetched child
is stored in the registry under its own key, in order (a later child with
the same key overwriting an earlier one). -/
def storeChildren (cs : List NodeRecord) (st : NVState) : NVState :=
  cs.foldl
    (fun st c => { st with nodeData := regInsert st.nodeData c.id.key c }) st

/-- The state after the resolution handler stored its data, lines 94-97:
nodeData[id]._children = cs (on the record rec found at id), then every
child stored under its key. -/
def markAndStore (s : NVState) (id : JSId) (rec : NodeRecord)
    (cs : List NodeRecord) : NVState :=
  storeChildren cs
    { s with nodeData := regInsert s.nodeData id.key (rec.setUchildren (some cs)) }

/-- The .then handler of the fetch branch of toggle, lines 92-100: if the
resolved value is undefined nothing changes; otherwise
nodeData[id]._children is assigned the list, every child is stored under
its own key, and toggle(id) is re-invoked. -/
def NodeView.resolveChildren (prune : Option NodeRecord → Option NodeRecord)
    (s : NVState) (id : JSId) (children : Option (List NodeRecord)) :
    ResolveRes :=
  match children with
  | none => .noData s
  | some cs =>
      match regLookup s.nodeData (some id) with
      | none => .threw s
      | some rec =>
          .done (markAndStore s id rec cs)
            (NodeView.toggle1 prune (markAndStore s id rec cs) id)

/-- The method redraw(), lines 108-112: re-render at the current id when it is
truthy (the JS test if (this.currentId)), otherwise do nothing. -/
def NodeView.redraw (prune : Option NodeRecord → Option NodeRecord)
    (s : NVState) : UpdOut :=
  if jsTruthy s.currentId then NodeView.updateView prune s s.currentId none
  else ⟨s, false, none⟩

/-- The method resize(nodeWidth, nodeHeight), lines 115-118: store the new spacing
in the layout and re-render at the current id. -/
def NodeView.resize (prune : Option NodeRecord → Option NodeRecord)
    (s : NVState) (w h : Int) : UpdOut :=
  NodeView.updateView prune { s with nodeWidth := w, nodeHeight := h }
    s.currentId none

/-- The method centerNode(), lines 69-74: resets the zoom and pan transform of the
node group with a fixed transition; it touches no modelled field. -/
def NodeView.centerNode (s : NVState) : NVState :=
  s

/-- The method on(event, handler), lines 63-66 (registerHandler): stores the handler
under the event name, last registration winning, and touches nothing
else.  Handlers live outside NVState (the operations above receive them
as function arguments); the table is modelled as an association list from
event names to handler tokens, looked up at the first matching entry, so
prepending implements last-wins. -/
def NodeView.on (s : NVState) (handlers : List (String × Nat))
    (event : String) (f : Nat) : NVState × List (String × Nat) :=
  (s, (event, f) :: handlers)

/-- The registry keys referenced by the parent-child edges of a tree
handed to the layout: for every link, the key of its source id and the
key of its target id. -/
def edgeRefKeys (t : NodeRecord) : List String :=
  (linkPairs t.nodes).flatMap (fun p => [JSId.key p.1.id, JSId.key p.2.id])

/-! Concrete fixtures used by the witnesses and counterexamples below:
a valid and an invalid configuration, a handful of node records, and a
state builder with the usual valid top-to-bottom orientation. -/

/-- A configuration with a valid orientation string. -/
def cfgTop : Config :=
  { orientation := "top-to-bottom", nodeWidth := 50, nodeHeight := 50 }

/-- A configuration whose orientation string is neither of the two
recognized values. -/
def cfgBad : Config :=
  { orientation := "diagonal", nodeWidth := 50, nodeHeight := 50 }

/-- A leaf record with id A whose children are fetched and empty. -/
def recA : NodeRecord :=
  NodeRecord.mk (JSId.str "A") (some 5) (some 6) false (some []) []

/-- A leaf record with id A whose children are not yet fetched. -/
def recAun : NodeRecord :=
  NodeRecord.mk (JSId.str "A") none none false none []

/-- A fresh leaf record with id B, unfetched. -/
def recB : NodeRecord :=
  NodeRecord.mk (JSId.str "B") none none false none []

/-- A fresh leaf record with id C, unfetched. -/
def recC : NodeRecord :=
  NodeRecord.mk (JSId.str "C") none none false none []

/-- A record whose id is the empty string (falsy), fetched, at (7, 8). -/
def recEmpty : NodeRecord :=
  NodeRecord.mk (JSId.str "") (some 7) (some 8) false (some []) []

/-- A record whose id is the number 0 (falsy), unfetched. -/
def recZero : NodeRecord :=
  NodeRecord.mk (JSId.num 0) none none false none []

/-- A child record that shares the identifier A of its parent. -/
def recAclob : NodeRecord :=
  NodeRecord.mk (JSId.str "A") (some 9) (some 9) false none []

/-- A root with id A carrying a pre-populated child B in its children
field, as a host may pass to setRoot; the child has never been stored. -/
def rootAB : NodeRecord :=
  NodeRecord.mk (JSId.str "A") none none false none [recB]

/-- A three-node display tree: A with the children B and C populated in
its children field, as a prune-nodes callback would return it. -/
def treeABC : NodeRecord :=
  NodeRecord.mk (JSId.str "A") none none false none [recB, recC]

/-- A state with the given registry and current id, a valid top-to-bottom
orientation, a fresh counter and an empty surface. -/
def sampleState (nd : List (String × NodeRecord)) (cid : Option JSId) :
    NVState :=
  { nextId := 0
  , nodeData := nd
  , currentId := cid
  , orientation := some Orient.topToBottom
  , renderedNodes := []
  , renderedLinks := []
  , nodeWidth := 50
  , nodeHeight := 50 }

/-! Helper lemmas about the flatten, the links, the key assignment, the
data join and the registry. -/

/-- The flatten distributes over worklist append. -/
theorem flattenList_append (l1 l2 : List NodeRecord) :
    flattenList (l1 ++ l2) = flattenList l1 ++ flattenList l2 := by
  induction l1 using flattenList.induct generalizing l2 with
  | case1 => simp [flattenList]
  | case2 i x y o u cs rest ih =>
    simp only [List.cons_append, flattenList]
    rw [← List.append_assoc, ih]

/-- The structural flatten distributes over forest append. -/
theorem nodesList_append (l1 l2 : List NodeRecord) :
    nodesList (l1 ++ l2) = nodesList l1 ++ nodesList l2 := by
  induction l1 with
  | nil => rfl
  | cons t ts ih =>
    simp only [List.cons_append, nodesList, List.append_assoc]
    rw [show ts.append l2 = ts ++ l2 from rfl, ih]

/-- The worklist flatten and the structural flatten agree. -/
theorem nodesList_eq_flattenList (l : List NodeRecord) :
    nodesList l = flattenList l := by
  induction l using flattenList.induct with
  | case1 => simp [nodesList, flattenList]
  | case2 i x y o u cs rest ih =>
    simp only [nodesList, NodeRecord.nodes, flattenList, ← ih, nodesList_append,
      List.append_assoc, List.cons_append, List.nil_append]

/-- The laid-out list of one tree, in worklist form. -/
theorem nodes_eq_flattenList (t : NodeRecord) :
    t.nodes = flattenList [t] := by
  cases t with
  | mk i x y o u cs =>
    have h1 := nodesList_eq_flattenList [NodeRecord.mk i x y o u cs]
    simp only [nodesList, List.append_nil] at h1
    exact h1

/-- Every tree of the worklist occurs in its flatten. -/
theorem mem_flattenList_of_mem (x : NodeRecord) (l : List NodeRecord) :
    x ∈ l → x ∈ flattenList l := by
  induction l using flattenList.induct with
  | case1 => intro h; simp at h
  | case2 i xx yy o u cs rest ih =>
    intro h
    simp only [flattenList]
    rcases List.mem_cons.mp h with h | h
    · exact List.mem_cons.mpr (Or.inl h)
    · exact List.mem_cons_of_mem _ (ih (List.mem_append_right _ h))

/-- A child of a flatten member is itself a flatten member. -/
theorem children_mem_flattenList (n c : NodeRecord) (l : List NodeRecord) :
    n ∈ flattenList l → c ∈ n.children → c ∈ flattenList l := by
  induction l using flattenList.induct with
  | case1 => intro hn _; simp [flattenList] at hn
  | case2 i xx yy o u cs rest ih =>
    intro hn hc
    simp only [flattenList] at hn ⊢
    rcases List.mem_cons.mp hn with h | h
    · subst h
      simp only [NodeRecord.children] at hc
      exact List.mem_cons_of_mem _
        (mem_flattenList_of_mem _ _ (List.mem_append_left _ hc))
    · exact List.mem_cons_of_mem _ (ih h hc)

/-- The children of all flatten members, together with the worklist roots,
are a permutation of the flatten: every flattened node except a root is
the child of exactly one flattened node. -/
theorem flatMap_children_perm (l : List NodeRecord) :
    ((flattenList l).flatMap NodeRecord.children ++ l).Perm (flattenList l) := by
  induction l using flattenList.induct with
  | case1 => simp [flattenList]
  | case2 i x y o u cs rest ih =>
    simp only [flattenList, List.flatMap_cons, NodeRecord.children]
    refine List.Perm.trans List.perm_middle (List.Perm.cons _ ?_)
    have h1 := (@List.perm_append_comm NodeRecord cs
      ((flattenList (cs ++ rest)).flatMap NodeRecord.children)).append_right rest
    refine h1.trans ?_
    rw [List.append_assoc]
    exact ih

/-- The targets of the link list are the children of the laid-out nodes. -/
theorem linkPairs_map_snd (l : List NodeRecord) :
    (linkPairs l).map Prod.snd = l.flatMap NodeRecord.children := by
  simp [linkPairs, List.map_flatMap, List.map_map, Function.comp]

/-- The key function leaves a laid-out forest unchanged, counter included,
when every id in it is truthy. -/
theorem assignIdL_eq_self :
    ∀ (l : List NodeRecord),
      (∀ r ∈ flattenList l, r.id.truthy = true) → ∀ n, assignIdL n l = (l, n)
  | [], _, n => rfl
  | .mk i x y o u cs :: rest, h, n => by
      have hi : JSId.truthy i = true := by
        have hm : NodeRecord.mk i x y o u cs
            ∈ flattenList (NodeRecord.mk i x y o u cs :: rest) := by
          simp [flattenList]
        simpa [NodeRecord.id] using h _ hm
      have hcs : ∀ r ∈ flattenList cs, r.id.truthy = true := by
        intro r hr
        apply h
        simp only [flattenList]
        refine List.mem_cons_of_mem _ ?_
        rw [flattenList_append]
        exact List.mem_append_left _ hr
      have hrest : ∀ r ∈ flattenList rest, r.id.truthy = true := by
        intro r hr
        apply h
        simp only [flattenList]
        refine List.mem_cons_of_mem _ ?_
        rw [flattenList_append]
        exact List.mem_append_right _ hr
      have h1 := assignIdL_eq_self cs hcs n
      have h2 := assignIdL_eq_self rest hrest n
      simp [assignIdL, assignId, hi, h1, h2]
termination_by l => sizeOf l
decreasing_by
  all_goals simp [List.cons.sizeOf_spec]
  all_goals omega

/-- The key function leaves a laid-out tree unchanged when every id in it
is truthy. -/
theorem assignId_eq_self (t : NodeRecord)
    (h : ∀ r ∈ t.nodes, r.id.truthy = true) (n : Int) :
    assignId n t = (t, n) := by
  have hflat : ∀ r ∈ flattenList [t], r.id.truthy = true := by
    intro r hr
    refine h r ?_
    rw [nodes_eq_flattenList]
    exact hr
  have h1 := assignIdL_eq_self [t] hflat n
  simp only [assignIdL] at h1
  have h2 : (assignId n t).1 = t := by
    have hh := congrArg (fun p => p.1) h1
    simpa using hh
  have h3 : (assignId n t).2 = n := by
    have hh := congrArg (fun p => p.2) h1
    simpa using hh
  exact Prod.ext h2 h3

/-- The data join keeps every key of a duplicate-free data list. -/
theorem dedupFirstAux_of_nodup (l : List String) :
    l.Nodup → ∀ seen, (∀ k ∈ l, k ∉ seen) → dedupFirstAux seen l = l := by
  induction l with
  | nil => intro _ seen _; rfl
  | cons k ks ih =>
    intro hnd seen hdisj
    have hk : k ∉ seen := hdisj k (List.mem_cons_self _ _)
    simp only [dedupFirstAux, if_neg hk]
    congr 1
    apply ih (List.Nodup.of_cons hnd)
    intro k2 hk2 hmem
    rcases List.mem_cons.mp hmem with h | h
    · subst h
      exact (List.nodup_cons.mp hnd).1 hk2
    · exact hdisj k2 (List.mem_cons_of_mem _ hk2) h

/-- The data join leaves one element per datum when the keys are
pairwise distinct. -/
theorem dedupFirst_of_nodup (l : List String) (h : l.Nodup) :
    dedupFirst l = l := by
  apply dedupFirstAux_of_nodup l h
  intro k _ hk
  simp at hk

/-- Lookup by find? after replacing the binding of a present key finds the new
binding. -/
theorem find?_map_replace_self (k : String) (r : NodeRecord) :
    ∀ (l : List (String × NodeRecord)), l.any (fun p => p.1 = k) = true →
      (l.map (fun p => if p.1 = k then (k, r) else p)).find?
        (fun p => p.1 = k) = some (k, r) := by
  intro l
  induction l with
  | nil => intro h; simp at h
  | cons p ps ih =>
    intro h
    by_cases hp : p.1 = k
    · simp [List.find?_cons, hp]
    · rw [List.any_cons] at h
      have hps : ps.any (fun p => p.1 = k) = true := by
        rcases Bool.or_eq_true_iff.mp h with h1 | h1
        · exact absurd (by simpa using h1) hp
        · exact h1
      simp only [List.map_cons, if_neg hp]
      rw [List.find?_cons_of_neg _ (by simpa using hp)]
      exact ih hps

/-- Lookup by find? after appending the binding of an absent key finds it. -/
theorem find?_append_single_self (k : String) (r : NodeRecord) :
    ∀ (l : List (String × NodeRecord)), l.any (fun p => p.1 = k) = false →
      (l ++ [(k, r)]).find? (fun p => p.1 = k) = some (k, r) := by
  intro l
  induction l with
  | nil => intro _; simp [List.find?]
  | cons p ps ih =>
    intro h
    rw [List.any_cons] at h
    rcases Bool.or_eq_false_iff.mp h with ⟨h1, h2⟩
    rw [List.cons_append, List.find?_cons_of_neg _ (by simpa using h1)]
    exact ih h2

/-- Replacing the binding of one key leaves lookups of other keys alone. -/
theorem find?_map_replace_other (k q : String) (r : NodeRecord) (hq : q ≠ k) :
    ∀ (l : List (String × NodeRecord)),
      (l.map (fun p => if p.1 = k then (k, r) else p)).find?
        (fun p => p.1 = q) = l.find? (fun p => p.1 = q) := by
  intro l
  induction l with
  | nil => rfl
  | cons p ps ih =>
    by_cases hp : p.1 = k
    · simp only [List.map_cons, if_pos hp]
      rw [List.find?_cons_of_neg _ (by simp [Ne.symm hq]),
        List.find?_cons_of_neg _ (by simp [hp, Ne.symm hq])]
      exact ih
    · simp only [List.map_cons, if_neg hp]
      by_cases hpq : p.1 = q
      · rw [List.find?_cons_of_pos _ (by simpa using hpq),
          List.find?_cons_of_pos _ (by simpa using hpq)]
      · rw [List.find?_cons_of_neg _ (by simpa using hpq),
          List.find?_cons_of_neg _ (by simpa using hpq)]
        exact ih

/-- Appending the binding of one key leaves lookups of other keys alone. -/
theorem find?_append_single_other (k q : String) (r : NodeRecord) (hq : q ≠ k) :
    ∀ (l : List (String × NodeRecord)),
      (l ++ [(k, r)]).find? (fun p => p.1 = q) = l.find? (fun p => p.1 = q) := by
  intro l
  induction l with
  | nil => simp [List.find?, Ne.symm hq]
  | cons p ps ih =>
    by_cases hpq : p.1 = q
    · rw [List.cons_append, List.find?_cons_of_pos _ (by simpa using hpq),
        List.find?_cons_of_pos _ (by simpa using hpq)]
    · rw [List.cons_append, List.find?_cons_of_neg _ (by simpa using hpq),
        List.find?_cons_of_neg _ (by simpa using hpq)]
      exact ih

/-- After nodeData[i] = r, looking i up yields r. -/
theorem regLookup_regInsert_self (l : List (String × NodeRecord))
    (i : JSId) (r : NodeRecord) :
    regLookup (regInsert l i.key r) (some i) = some r := by
  by_cases hany : l.any (fun p => p.1 = i.key) = true
  · simp only [regLookup, regInsert, if_pos hany]
    rw [find?_map_replace_self i.key r l hany]
  · simp only [regLookup, regInsert, if_neg hany]
    rw [find?_append_single_self i.key r l (Bool.eq_false_iff.mpr hany)]

/-- After nodeData[k] = r, looking up a different key is unchanged. -/
theorem regLookup_regInsert_other (l : List (String × NodeRecord))
    (i : JSId) (k : String) (r : NodeRecord) (hq : i.key ≠ k) :
    regLookup (regInsert l k r) (some i) = regLookup l (some i) := by
  by_cases hany : l.any (fun p => p.1 = k) = true
  · simp only [regLookup, regInsert, if_pos hany]
    rw [find?_map_replace_other k i.key r hq l]
  · simp only [regLookup, regInsert, if_neg hany]
    rw [find?_append_single_other k i.key r hq l]

/-- Storing a record never removes a registry key. -/
theorem regKeys_regInsert (l : List (String × NodeRecord)) (k : String)
    (r : NodeRecord) (k2 : String) (h : k2 ∈ regKeys l) :
    k2 ∈ regKeys (regInsert l k r) := by
  by_cases hany : l.any (fun p => p.1 = k) = true
  · simp only [regKeys, regInsert, if_pos hany, List.map_map]
    rw [show (Prod.fst ∘ fun p : String × NodeRecord =>
      if p.1 = k then (k, r) else p) = Prod.fst from funext (fun p => by
        by_cases hp : p.1 = k <;> simp [hp])]
    exact h
  · simp only [regKeys, regInsert, if_neg hany, List.map_append]
    exact List.mem_append_left _ h

/-- Storing a record puts its key into the registry. -/
theorem mem_regKeys_regInsert_self (l : List (String × NodeRecord))
    (k : String) (r : NodeRecord) : k ∈ regKeys (regInsert l k r) := by
  by_cases hany : l.any (fun p => p.1 = k) = true
  · simp only [regKeys, regInsert, if_pos hany, List.map_map]
    rcases List.any_eq_true.mp hany with ⟨p, hp, hpk⟩
    refine List.mem_map.mpr ⟨p, hp, ?_⟩
    have hpk2 : p.1 = k := by simpa using hpk
    simp [hpk2]
  · simp [regKeys, regInsert, if_neg hany]

/-- A render pass never touches the registry. -/
theorem updateView_nodeData (prune : Option NodeRecord → Option NodeRecord)
    (s : NVState) (a b : Option JSId) :
    (NodeView.updateView prune s a b).state.nodeData = s.nodeData := by
  unfold NodeView.updateView
  cases regLookup s.nodeData (jsOrId b s.currentId) with
  | none => rfl
  | some refRec =>
    simp only []
    split
    · rfl
    · rfl

/-- The flatten of a single tree starts with the tree itself. -/
theorem nodes_mk (i : JSId) (x y : Option Int) (o : Bool)
    (u : Option (List NodeRecord)) (cs : List NodeRecord) :
    (NodeRecord.mk i x y o u cs).nodes
      = NodeRecord.mk i x y o u cs :: flattenList cs := by
  simp [NodeRecord.nodes, nodesList_eq_flattenList]

/-- The layout of a tree always lays out at least one node. -/
theorem nodes_ne_nil (t : NodeRecord) : t.nodes ≠ [] := by
  cases t
  simp [nodes_mk]

/-- The key function cannot empty a laid-out tree. -/
theorem assignId_nodes_ne_nil (n : Int) (t : NodeRecord) :
    ((assignId n t).1).nodes ≠ [] := by
  cases t
  simp [assignId, nodes_mk]

/-- Writing isOpened does not move a record. -/
theorem setOpened_pos (r : NodeRecord) (b : Bool) :
    NodeView.pos (r.setOpened b) = NodeView.pos r := by
  cases r
  rfl

/-- Writing isOpened stores the flag. -/
theorem setOpened_isOpened (r : NodeRecord) (b : Bool) :
    (r.setOpened b).isOpened = b := by
  cases r
  rfl

/-- Writing isOpened leaves the fetched-children cache alone. -/
theorem setOpened_uchildren (r : NodeRecord) (b : Bool) :
    (r.setOpened b).uchildren = r.uchildren := by
  cases r
  rfl

/-- Writing _children stores the cache. -/
theorem setUchildren_uchildren (r : NodeRecord) (u : Option (List NodeRecord)) :
    (r.setUchildren u).uchildren = u := by
  cases r
  rfl

/-- Writing _children leaves the expansion flag alone. -/
theorem setUchildren_isOpened (r : NodeRecord) (u : Option (List NodeRecord)) :
    (r.setUchildren u).isOpened = r.isOpened := by
  cases r
  rfl

/-- A render pass whose reference record resolves and whose orientation
strategy is defined completes as a renderOk. -/
theorem updateView_ok (prune : Option NodeRecord → Option NodeRecord)
    (s : NVState) (a b : Option JSId) (ori : Orient) (refRec : NodeRecord)
    (ho : s.orientation = some ori)
    (href : regLookup s.nodeData (jsOrId b s.currentId) = some refRec) :
    NodeView.updateView prune s a b
      = renderOk s a (NodeView.pos refRec) (prune (regLookup s.nodeData a)) := by
  unfold NodeView.updateView
  rw [href]
  simp [ho]

/-- Storing the fetched children never removes a registry key. -/
theorem foldl_insert_keys_mono (cs : List NodeRecord) :
    ∀ (st : NVState) (k : String), k ∈ regKeys st.nodeData →
      k ∈ regKeys ((cs.foldl (fun st c =>
        { st with nodeData := regInsert st.nodeData c.id.key c }) st)).nodeData := by
  induction cs with
  | nil => intro st k h; exact h
  | cons c cs ih =>
    intro st k h
    exact ih _ _ (regKeys_regInsert _ _ _ _ h)

/-- Storing the fetched children registers each of their keys. -/
theorem foldl_insert_child_mem (cs : List NodeRecord) :
    ∀ (st : NVState) (c : NodeRecord), c ∈ cs →
      c.id.key ∈ regKeys ((cs.foldl (fun st c =>
        { st with nodeData := regInsert st.nodeData c.id.key c }) st)).nodeData := by
  induction cs with
  | nil => intro st c h; simp at h
  | cons c0 cs ih =>
    intro st c h
    rcases List.mem_cons.mp h with h | h
    · subst h
      exact foldl_insert_keys_mono cs _ _ (mem_regKeys_regInsert_self _ _ _)
    · exact ih _ _ h

/-- Storing the fetched children leaves the bindings of other keys alone. -/
theorem foldl_insert_lookup_other (cs : List NodeRecord) :
    ∀ (st : NVState) (i : JSId), (∀ c ∈ cs, c.id.key ≠ i.key) →
      regLookup ((cs.foldl (fun st c =>
        { st with nodeData := regInsert st.nodeData c.id.key c }) st)).nodeData
          (some i)
        = regLookup st.nodeData (some i) := by
  induction cs with
  | nil => intro st i _; rfl
  | cons c0 cs ih =>
    intro st i h
    rw [List.foldl_cons, ih _ i (fun c hc => h c (List.mem_cons_of_mem _ hc))]
    exact regLookup_regInsert_other _ _ _ _
      (Ne.symm (h c0 (List.mem_cons_self _ _)))

/-- Projection: a completed render pass stores the rootId it ran with. -/
theorem renderOk_state_currentId (s : NVState) (a : Option JSId)
    (pv : Int × Int) (pr : Option NodeRecord) :
    (renderOk s a pv pr).state.currentId = a := rfl

/-- Projection: a completed render pass leaves the registry alone. -/
theorem renderOk_state_nodeData (s : NVState) (a : Option JSId)
    (pv : Int × Int) (pr : Option NodeRecord) :
    (renderOk s a pv pr).state.nodeData = s.nodeData := rfl

/-- Projection: a completed render pass does not throw. -/
theorem renderOk_threw (s : NVState) (a : Option JSId)
    (pv : Int × Int) (pr : Option NodeRecord) :
    (renderOk s a pv pr).threw = false := rfl

/-- Projection: the render information of a completed render pass. -/
theorem renderOk_info (s : NVState) (a : Option JSId)
    (pv : Int × Int) (pr : Option NodeRecord) :
    (renderOk s a pv pr).info = some ⟨a, pv, pr, (laidList s.nextId pr).1⟩ := rfl

/-- Projection: the g.node element keys after a completed render pass. -/
theorem renderOk_state_renderedNodes (s : NVState) (a : Option JSId)
    (pv : Int × Int) (pr : Option NodeRecord) :
    (renderOk s a pv pr).state.renderedNodes
      = nodeKeysOf (laidList s.nextId pr).1 := rfl

/-- Projection: the path.link element keys after a completed render pass. -/
theorem renderOk_state_renderedLinks (s : NVState) (a : Option JSId)
    (pv : Int × Int) (pr : Option NodeRecord) :
    (renderOk s a pv pr).state.renderedLinks
      = linkKeysOf (laidList s.nextId pr).1 := rfl

/-- Projection: the counter after a completed render pass. -/
theorem renderOk_state_nextId (s : NVState) (a : Option JSId)
    (pv : Int × Int) (pr : Option NodeRecord) :
    (renderOk s a pv pr).state.nextId = (laidList s.nextId pr).2 := rfl

/-- C9: calling toggle(id) with an identifier absent from the registry
throws: the code reads ._children of nodeData[id], which is undefined,
without a guard, so a TypeError is raised before any state change; the
controller state is exactly as before. -/
theorem c9_toggle_missing_id_throws
    (prune : Option NodeRecord → Option NodeRecord) (s : NVState) (id : JSId)
    (h : regLookup s.nodeData (some id) = none) :
    NodeView.toggle1 prune s id = ToggleRes.threw s := by
  unfold NodeView.toggle1
  rw [h]

/-- Witness for c9_toggle_missing_id_throws: toggling id B on a registry
that only holds id A. -/
theorem c9_toggle_missing_id_throws_witness :
    NodeView.toggle1 (fun x => x)
        (sampleState [("A", recA)] (some (JSId.str "A"))) (JSId.str "B")
      = ToggleRes.threw (sampleState [("A", recA)] (some (JSId.str "A"))) :=
  c9_toggle_missing_id_throws _ _ _ rfl

/-- C10: an orientation string other than top-to-bottom or left-to-right
resolves to undefined, (re)initialization stores it without reporting
anything, and every subsequent render pass that has a node to position
(the pruned tree is defined, hence nonempty) throws. -/
theorem c10_invalid_orientation
    (k : String) (hk1 : k ≠ "top-to-bottom") (hk2 : k ≠ "left-to-right")
    (cfg : Config) (hcfg : cfg.orientation = k)
    (prune : Option NodeRecord → Option NodeRecord) (s : NVState)
    (hs : s.orientation = none) (rootId toggleId : Option JSId)
    (t : NodeRecord) (hp : prune (regLookup s.nodeData rootId) = some t) :
    NodeView.orientation k = none ∧
    (NodeView.reload cfg).orientation = none ∧
    (NodeView.updateView prune s rootId toggleId).threw = true := by
  refine ⟨by simp [NodeView.orientation, hk1, hk2], ?_, ?_⟩
  · simp [NodeView.reload, hcfg, NodeView.orientation, hk1, hk2]
  · unfold NodeView.updateView
    cases href : regLookup s.nodeData (jsOrId toggleId s.currentId) with
    | none => rfl
    | some refRec =>
      have hne := assignId_nodes_ne_nil s.nextId t
      simp [hs, hp, laidList, hne]

/-- Witness for c10_invalid_orientation: configuration diagonal, render
pass over a one-node pruned tree. -/
theorem c10_invalid_orientation_witness :
    (NodeView.updateView (fun _ => some recA) (NodeView.reload cfgBad)
        none none).threw = true :=
  (c10_invalid_orientation "diagonal" (by decide) (by decide) cfgBad rfl
    (fun _ => some recA) (NodeView.reload cfgBad) rfl none none recA rfl).2.2

/-- C4: setRoot(undefined) is a no-op returning the state unchanged with
nothing rendered; setRoot(root) stores the root in the registry under its
identifier, makes it the current root, and performs a render pass rooted
there (stated under a resolved orientation strategy, so that the pass
completes). -/
theorem c4_setRoot
    (prune : Option NodeRecord → Option NodeRecord) (s : NVState)
    (r : NodeRecord) (ori : Orient) (ho : s.orientation = some ori) :
    NodeView.setRoot prune s none = ⟨s, false, none⟩ ∧
    (NodeView.setRoot prune s (some r)).state.currentId = some r.id ∧
    regLookup (NodeView.setRoot prune s (some r)).state.nodeData (some r.id)
      = some r ∧
    (NodeView.setRoot prune s (some r)).threw = false ∧
    ∃ i, (NodeView.setRoot prune s (some r)).info = some i ∧
      i.rootId = some r.id := by
  have hins := regLookup_regInsert_self s.nodeData r.id r
  have hok : NodeView.setRoot prune s (some r)
      = renderOk { s with nodeData := regInsert s.nodeData r.id.key r, currentId := some r.id }
          (some r.id) (NodeView.pos r)
          (prune (regLookup (regInsert s.nodeData r.id.key r) (some r.id))) := by
    show NodeView.updateView prune _ (some r.id) none = _
    exact updateView_ok prune _ (some r.id) none ori r ho hins
  refine ⟨rfl, ?_, ?_, ?_, ?_⟩
  · rw [hok, renderOk_state_currentId]
  · rw [hok, renderOk_state_nodeData]
    exact hins
  · rw [hok, renderOk_threw]
  · rw [hok, renderOk_info]
    exact ⟨_, rfl, rfl⟩

/-- Witness for c4_setRoot: a fresh valid controller and the root A. -/
theorem c4_setRoot_witness :
    (NodeView.setRoot (fun x => x) (sampleState [] none) (some recA)).threw
      = false :=
  (c4_setRoot (fun x => x) (sampleState [] none) recA Orient.topToBottom
    rfl).2.2.2.1

/-- C8 (amended): redraw() re-renders at the current root when the stored
current identifier is truthy, and is a no-op leaving all state unchanged
when there is no current identifier or when it is falsy (the identifier 0
or the empty string), even though setRoot succeeded for such a root. -/
theorem c8_redraw
    (prune : Option NodeRecord → Option NodeRecord) (s : NVState)
    (ori : Orient) (refRec : NodeRecord) (ho : s.orientation = some ori) :
    (jsTruthy s.currentId = false →
      NodeView.redraw prune s = ⟨s, false, none⟩) ∧
    (jsTruthy s.currentId = true →
      regLookup s.nodeData s.currentId = some refRec →
      NodeView.redraw prune s
        = renderOk s s.currentId (NodeView.pos refRec)
            (prune (regLookup s.nodeData s.currentId))) := by
  constructor
  · intro h
    simp [NodeView.redraw, h]
  · intro h href
    have hj : jsOrId none s.currentId = s.currentId := rfl
    simp only [NodeView.redraw, h, if_true]
    exact updateView_ok prune s s.currentId none ori refRec ho (hj ▸ href)

/-- Counterexample for C8 as stated: after setRoot succeeds for the root
with identifier 0 (the render pass ran, the current id is 0), redraw() is
a no-op instead of re-rendering, because if (this.currentId) treats the
identifier 0 as absent. -/
theorem c8_cex_zero_id_root :
    (NodeView.setRoot (fun x => x) (NodeView.reload cfgTop)
        (some recZero)).info.isSome = true ∧
    (NodeView.setRoot (fun x => x) (NodeView.reload cfgTop)
        (some recZero)).state.currentId = some (JSId.num 0) ∧
    NodeView.redraw (fun x => x)
        (NodeView.setRoot (fun x => x) (NodeView.reload cfgTop)
          (some recZero)).state
      = ⟨(NodeView.setRoot (fun x => x) (NodeView.reload cfgTop)
          (some recZero)).state, false, none⟩ :=
  ⟨rfl, rfl, rfl⟩

/-- Witness for c8_redraw: the no-op branch on a fresh controller. -/
theorem c8_redraw_witness :
    NodeView.redraw (fun x => x) (sampleState [] none)
      = ⟨sampleState [] none, false, none⟩ :=
  (c8_redraw (fun x => x) (sampleState [] none) Orient.topToBottom recA
    rfl).1 rfl

/-- No toggle invocation removes a registry key. -/
theorem toggle1_keys_mono (prune : Option NodeRecord → Option NodeRecord)
    (s : NVState) (id : JSId) (k : String) (hk : k ∈ regKeys s.nodeData) :
    k ∈ regKeys (NodeView.toggle1 prune s id).finalState.nodeData := by
  cases h1 : regLookup s.nodeData (some id) with
  | none => simpa [NodeView.toggle1, h1, ToggleRes.finalState] using hk
  | some rec =>
    cases h2 : rec.uchildren with
    | none => simpa [NodeView.toggle1, h1, h2, ToggleRes.finalState] using hk
    | some cs =>
      simp only [NodeView.toggle1, h1, h2, ToggleRes.finalState]
      rw [updateView_nodeData]
      show k ∈ regKeys (regInsert s.nodeData id.key (rec.setOpened (!rec.isOpened)))
      exact regKeys_regInsert _ _ _ _ hk

/-- No fetch resolution removes a registry key. -/
theorem resolve_keys_mono (prune : Option NodeRecord → Option NodeRecord)
    (s : NVState) (id : JSId) (children : Option (List NodeRecord))
    (k : String) (hk : k ∈ regKeys s.nodeData) :
    k ∈ regKeys
      (NodeView.resolveChildren prune s id children).finalState.nodeData := by
  cases children with
  | none => simpa [NodeView.resolveChildren, ResolveRes.finalState] using hk
  | some cs =>
    cases h1 : regLookup s.nodeData (some id) with
    | none =>
      simpa [NodeView.resolveChildren, h1, ResolveRes.finalState] using hk
    | some rec =>
      simp only [NodeView.resolveChildren, h1, ResolveRes.finalState]
      apply toggle1_keys_mono
      show k ∈ regKeys (storeChildren cs _).nodeData
      apply foldl_insert_keys_mono
      exact regKeys_regInsert _ _ _ _ hk

/-- C5: the registry is append-only over the controller lifetime: none of
setRoot, toggle (either branch, and the fetch resolution), redraw, resize,
centerNode or registerHandler ever removes a key once stored, and
reinitialization discards the registry wholesale, leaving it empty. -/
theorem c5_registry_append_only
    (prune : Option NodeRecord → Option NodeRecord) (cfg : Config)
    (s : NVState) (root : Option NodeRecord) (id id2 : JSId)
    (children : Option (List NodeRecord)) (w h : Int)
    (handlers : List (String × Nat)) (ev : String) (f : Nat) (k : String)
    (hk : k ∈ regKeys s.nodeData) :
    k ∈ regKeys (NodeView.setRoot prune s root).state.nodeData ∧
    k ∈ regKeys (NodeView.toggle1 prune s id).finalState.nodeData ∧
    k ∈ regKeys
      (NodeView.resolveChildren prune s id2 children).finalState.nodeData ∧
    k ∈ regKeys (NodeView.redraw prune s).state.nodeData ∧
    k ∈ regKeys (NodeView.resize prune s w h).state.nodeData ∧
    k ∈ regKeys (NodeView.centerNode s).nodeData ∧
    k ∈ regKeys (NodeView.on s handlers ev f).1.nodeData ∧
    regKeys (NodeView.reloadOn cfg s).nodeData = [] := by
  refine ⟨?_, toggle1_keys_mono prune s id k hk,
    resolve_keys_mono prune s id2 children k hk, ?_, ?_, hk, hk, rfl⟩
  · cases root with
    | none => exact hk
    | some r =>
      show k ∈ regKeys (NodeView.updateView prune _ (some r.id) none).state.nodeData
      rw [updateView_nodeData]
      exact regKeys_regInsert _ _ _ _ hk
  · unfold NodeView.redraw
    split
    · rw [updateView_nodeData]
      exact hk
    · exact hk
  · unfold NodeView.resize
    rw [updateView_nodeData]
    exact hk

/-- Witness for c5_registry_append_only: key A survives every operation;
the redraw conjunct is exhibited. -/
theorem c5_registry_append_only_witness :
    "A" ∈ regKeys (NodeView.redraw (fun x => x)
        (sampleState [("A", recA)] none)).state.nodeData :=
  (c5_registry_append_only (fun x => x) cfgTop
    (sampleState [("A", recA)] none) none (JSId.str "A") (JSId.str "A")
    none 80 80 [] "get-children" 0 "A" (by decide)).2.2.2.1

/-- C3 (amended): toggling a node whose children are already fetched
invokes no fetch, negates its expansion flag in place, and runs a render
pass rooted at the unchanged current root; the animation reference is the
pre-render position of the toggled node provided its identifier is truthy
(a falsy identifier falls back to the current root, see the
counterexample).  Stated under a resolved orientation strategy. -/
theorem c3_toggle_fetched
    (prune : Option NodeRecord → Option NodeRecord) (s : NVState) (id : JSId)
    (rec : NodeRecord) (cs : List NodeRecord) (ori : Orient)
    (hrec : regLookup s.nodeData (some id) = some rec)
    (hu : rec.uchildren = some cs)
    (hid : id.truthy = true)
    (ho : s.orientation = some ori) :
    (NodeView.toggle1 prune s id).fetchCalls = 0 ∧
    regLookup (NodeView.toggle1 prune s id).finalState.nodeData (some id)
      = some (rec.setOpened (!rec.isOpened)) ∧
    (NodeView.toggle1 prune s id).finalState.currentId = s.currentId ∧
    ∃ i, (NodeView.toggle1 prune s id).rendered = some i ∧
      i.rootId = s.currentId ∧ i.prevPos = NodeView.pos rec := by
  have ht : NodeView.toggle1 prune s id
      = ToggleRes.flipped (NodeView.updateView prune (flipState s id rec)
          s.currentId (some id)) := by
    simp only [NodeView.toggle1, hrec, hu]
  have href : regLookup (flipState s id rec).nodeData (some id)
      = some (rec.setOpened (!rec.isOpened)) :=
    regLookup_regInsert_self s.nodeData id (rec.setOpened (!rec.isOpened))
  have hok := updateView_ok prune (flipState s id rec)
    s.currentId (some id) ori (rec.setOpened (!rec.isOpened)) ho
    (by simpa [jsOrId, hid] using href)
  refine ⟨by rw [ht]; rfl, ?_, ?_, ?_⟩
  · rw [ht]
    simp only [ToggleRes.finalState]
    rw [hok, renderOk_state_nodeData]
    exact href
  · rw [ht]
    simp only [ToggleRes.finalState]
    rw [hok, renderOk_state_currentId]
  · rw [ht]
    simp only [ToggleRes.rendered]
    rw [hok, renderOk_info]
    exact ⟨_, rfl, rfl, by rw [setOpened_pos]⟩

/-- Counterexample for C3 as stated: toggling the fetched node with the
falsy identifier (the empty string) renders with the position (5, 6) of
the current root A as the animation reference, not the position (7, 8) of
the toggled node, because toggleId or-else currentId skips a falsy
toggleId. -/
theorem c3_cex_falsy_toggle_id :
    (NodeView.toggle1 (fun x => x)
        (sampleState [("A", recA), ("", recEmpty)] (some (JSId.str "A")))
        (JSId.str "")).rendered
      = some ⟨some (JSId.str "A"), (5, 6), some recA, [recA]⟩ ∧
    NodeView.pos recEmpty = (7, 8) ∧ ((5, 6) : Int × Int) ≠ (7, 8) :=
  ⟨rfl, rfl, by decide⟩

/-- Witness for c3_toggle_fetched: toggling the fetched root A makes no
fetch call. -/
theorem c3_toggle_fetched_witness :
    (NodeView.toggle1 (fun x => x)
        (sampleState [("A", recA)] (some (JSId.str "A")))
        (JSId.str "A")).fetchCalls = 0 :=
  (c3_toggle_fetched (fun x => x)
    (sampleState [("A", recA)] (some (JSId.str "A"))) (JSId.str "A")
    recA [] Orient.topToBottom rfl rfl rfl rfl).1

/-- C6 (amended): a render pass never changes a truthy identifier: when
every id of the pruned tree is truthy (neither 0 nor the empty string nor
absent), the laid-out records carry exactly their original identifiers
and the counter does not advance.  A falsy identifier is reassigned from
the counter by the data-join key function, see the counterexample. -/
theorem c6_truthy_ids_stable
    (prune : Option NodeRecord → Option NodeRecord) (s : NVState)
    (a b : Option JSId) (ori : Orient) (refRec t : NodeRecord)
    (ho : s.orientation = some ori)
    (href : regLookup s.nodeData (jsOrId b s.currentId) = some refRec)
    (hp : prune (regLookup s.nodeData a) = some t)
    (ht : ∀ r ∈ t.nodes, r.id.truthy = true) :
    (NodeView.updateView prune s a b).info
      = some ⟨a, NodeView.pos refRec, some t, t.nodes⟩ ∧
    (NodeView.updateView prune s a b).state.nextId = s.nextId := by
  have ha := assignId_eq_self t ht s.nextId
  rw [updateView_ok prune s a b ori refRec ho href]
  constructor
  · rw [renderOk_info, hp]
    simp [laidList, ha]
  · rw [renderOk_state_nextId, hp]
    simp [laidList, ha]

/-- Counterexample for C6 as stated: a node whose identifier is the
empty string reaches the render pass and leaves it with identifier 0
taken from the counter: the key function d.id or-else assignment
overwrote it. -/
theorem c6_cex_falsy_id_reassigned :
    ((NodeView.setRoot (fun x => x) (NodeView.reload cfgTop)
        (some recEmpty)).info.map (fun i => i.laid.map NodeRecord.id))
      = some [JSId.num 0] ∧
    recEmpty.id = JSId.str "" ∧ JSId.num 0 ≠ JSId.str "" :=
  ⟨rfl, rfl, by decide⟩

/-- Witness for c6_truthy_ids_stable: rendering the stored root A leaves
its identifier in place. -/
theorem c6_truthy_ids_stable_witness :
    (NodeView.updateView (fun x => x)
        (sampleState [("A", recA)] (some (JSId.str "A")))
        (some (JSId.str "A")) none).info
      = some ⟨some (JSId.str "A"), NodeView.pos recA, some recA, recA.nodes⟩ :=
  (c6_truthy_ids_stable (fun x => x)
    (sampleState [("A", recA)] (some (JSId.str "A")))
    (some (JSId.str "A")) none Orient.topToBottom recA recA
    rfl rfl rfl (by decide)).1

/-- C7 (amended): every identifier referenced by a parent-child edge of
the tree handed to the layout is a registry key, provided every node of
that tree has its identifier key stored in the registry (every edge
endpoint is a node of the tree).  The controller itself does not ensure
the proviso: a root passed to setRoot with pre-populated descendants is
stored without them, see the counterexample. -/
theorem c7_edge_ids_registered
    (prune : Option NodeRecord → Option NodeRecord) (s : NVState)
    (rootId : Option JSId) (t : NodeRecord)
    (hp : prune (regLookup s.nodeData rootId) = some t)
    (hreg : ∀ r ∈ t.nodes, r.id.key ∈ regKeys s.nodeData) :
    ∀ k ∈ edgeRefKeys t, k ∈ regKeys s.nodeData := by
  intro k hk
  simp only [edgeRefKeys, List.mem_flatMap] at hk
  rcases hk with ⟨p, hp2, hkk⟩
  have hmem : p.1 ∈ t.nodes ∧ p.2 ∈ t.nodes := by
    simp only [linkPairs, List.mem_flatMap, List.mem_map] at hp2
    rcases hp2 with ⟨n, hn, c, hc, hpc⟩
    constructor
    · rw [← hpc]
      exact hn
    · rw [← hpc]
      show c ∈ t.nodes
      rw [nodes_eq_flattenList] at hn ⊢
      exact children_mem_flattenList n c [t] hn hc
  simp only [List.mem_cons, List.not_mem_nil, or_false] at hkk
  rcases hkk with h | h
  · rw [h]
    exact hreg _ hmem.1
  · rw [h]
    exact hreg _ hmem.2

/-- Counterexample for C7 as stated: setRoot stores only the root A of a
tree that already carries the child B; the identity prune-nodes hands
that tree to the layout, whose edge references B, while B is absent from
the registry at layout time. -/
theorem c7_cex_unregistered_child :
    ((NodeView.setRoot (fun x => x) (NodeView.reload cfgTop)
        (some rootAB)).info.map RenderInfo.pruned) = some (some rootAB) ∧
    "B" ∈ edgeRefKeys rootAB ∧
    "B" ∉ regKeys (NodeView.setRoot (fun x => x) (NodeView.reload cfgTop)
        (some rootAB)).state.nodeData :=
  ⟨rfl, by decide, by decide⟩

/-- Witness for c7_edge_ids_registered: both nodes of the pruned tree
are registered, so the edge-referenced key B is registered. -/
theorem c7_edge_ids_registered_witness :
    "B" ∈ regKeys (sampleState [("A", rootAB), ("B", recB)]
        (some (JSId.str "A"))).nodeData :=
  c7_edge_ids_registered (fun x => x)
    (sampleState [("A", rootAB), ("B", recB)] (some (JSId.str "A")))
    (some (JSId.str "A")) rootAB rfl (by decide) "B" (by decide)

/-- C1 (amended): toggling a node whose children are not fetched invokes
get-children exactly once with no synchronous state change; when the
future resolves to a defined list of children none of which shares the
identifier key of the parent, every child is stored in the registry under
its own key, the parent entry is marked as having fetched children, and
the re-invoked toggle(id) flips the expansion flag of the parent and runs
a render pass; when the future resolves to undefined, the state is
untouched.  A child sharing the identifier of the parent overwrites the
parent entry and defeats the re-invocation, see the counterexample. -/
theorem c1_lazy_fetch
    (prune : Option NodeRecord → Option NodeRecord) (s : NVState) (id : JSId)
    (rec : NodeRecord) (cs : List NodeRecord)
    (hrec : regLookup s.nodeData (some id) = some rec)
    (hu : rec.uchildren = none)
    (hcs : ∀ c ∈ cs, c.id.key ≠ id.key) :
    NodeView.toggle1 prune s id = ToggleRes.fetching s ∧
    (NodeView.toggle1 prune s id).fetchCalls = 1 ∧
    NodeView.resolveChildren prune s id none = ResolveRes.noData s ∧
    NodeView.resolveChildren prune s id (some cs)
      = ResolveRes.done (markAndStore s id rec cs)
          (NodeView.toggle1 prune (markAndStore s id rec cs) id) ∧
    (∀ c ∈ cs, c.id.key ∈ regKeys (markAndStore s id rec cs).nodeData) ∧
    regLookup (markAndStore s id rec cs).nodeData (some id)
      = some (rec.setUchildren (some cs)) ∧
    ∃ out, NodeView.toggle1 prune (markAndStore s id rec cs) id
        = ToggleRes.flipped out ∧
      regLookup out.state.nodeData (some id)
        = some ((rec.setUchildren (some cs)).setOpened
            (!(rec.setUchildren (some cs)).isOpened)) := by
  have hfetch : NodeView.toggle1 prune s id = ToggleRes.fetching s := by
    simp only [NodeView.toggle1, hrec, hu]
  have hlook2 : regLookup (markAndStore s id rec cs).nodeData (some id)
      = some (rec.setUchildren (some cs)) := by
    show regLookup (storeChildren cs _).nodeData (some id) = _
    unfold storeChildren
    rw [foldl_insert_lookup_other cs _ id hcs]
    exact regLookup_regInsert_self s.nodeData id (rec.setUchildren (some cs))
  refine ⟨hfetch, by rw [hfetch]; rfl, rfl, ?_, ?_, hlook2, ?_⟩
  · simp only [NodeView.resolveChildren, hrec]
  · intro c hc
    show c.id.key ∈ regKeys (storeChildren cs _).nodeData
    unfold storeChildren
    exact foldl_insert_child_mem cs _ c hc
  · have hflip : NodeView.toggle1 prune (markAndStore s id rec cs) id
        = ToggleRes.flipped (NodeView.updateView prune
            (flipState (markAndStore s id rec cs) id
              (rec.setUchildren (some cs)))
            (markAndStore s id rec cs).currentId (some id)) := by
      simp only [NodeView.toggle1, hlook2, setUchildren_uchildren]
    refine ⟨_, hflip, ?_⟩
    rw [updateView_nodeData]
    show regLookup (regInsert (markAndStore s id rec cs).nodeData id.key _)
      (some id) = _
    exact regLookup_regInsert_self _ id _

/-- Counterexample for C1 as stated: the fetch for the unfetched node A
resolves with a single child whose identifier is also A.  The child
record overwrites the parent entry (the fetched-children mark is erased:
_children of the stored entry is undefined), and the re-invoked toggle
takes the fetch branch again instead of flipping the expansion flag, so
the parent is neither marked nor expanded. -/
theorem c1_cex_child_with_parent_id :
    NodeView.resolveChildren (fun x => x)
        (sampleState [("A", recAun)] (some (JSId.str "A"))) (JSId.str "A")
        (some [recAclob])
      = ResolveRes.done (sampleState [("A", recAclob)] (some (JSId.str "A")))
          (ToggleRes.fetching
            (sampleState [("A", recAclob)] (some (JSId.str "A")))) ∧
    regLookup (sampleState [("A", recAclob)]
        (some (JSId.str "A"))).nodeData (some (JSId.str "A"))
      = some recAclob ∧
    recAclob.uchildren = none ∧
    recAclob.isOpened = false :=
  ⟨rfl, rfl, rfl, rfl⟩

/-- Witness for c1_lazy_fetch: node A fetches children B and C. -/
theorem c1_lazy_fetch_witness :
    (NodeView.toggle1 (fun x => x)
        (sampleState [("A", recAun)] (some (JSId.str "A")))
        (JSId.str "A")).fetchCalls = 1 :=
  (c1_lazy_fetch (fun x => x)
    (sampleState [("A", recAun)] (some (JSId.str "A"))) (JSId.str "A")
    recAun [recB, recC] rfl rfl (by decide)).2.1

/-- The link keys (d.target.id) are the keys of the children of the
laid-out nodes. -/
theorem linkTargets_key_eq (l : List NodeRecord) :
    (linkPairs l).map (fun p => JSId.key p.2.id)
      = (l.flatMap NodeRecord.children).map (fun r => JSId.key r.id) := by
  rw [← linkPairs_map_snd, List.map_map]
  rfl

/-- For one laid-out tree, the children of its nodes together with the
root are a permutation of its nodes. -/
theorem tree_children_perm (t : NodeRecord) :
    ((t.nodes.flatMap NodeRecord.children) ++ [t]).Perm t.nodes := by
  rw [nodes_eq_flattenList]
  exact flatMap_children_perm [t]

/-- C2: a render pass over a pruned tree with K nodes leaves exactly K
rendered node elements and K - 1 rendered link elements, and zero of each
when prune-nodes returns undefined.  Stated under the data-model
invariant that identifiers of the pruned tree are truthy and pairwise
distinct, and under a resolved orientation strategy and reference record,
so that the pass completes. -/
theorem c2_render_counts
    (prune : Option NodeRecord → Option NodeRecord) (s : NVState)
    (a b : Option JSId) (ori : Orient) (refRec : NodeRecord)
    (ho : s.orientation = some ori)
    (href : regLookup s.nodeData (jsOrId b s.currentId) = some refRec) :
    (∀ t, prune (regLookup s.nodeData a) = some t →
      (∀ r ∈ t.nodes, r.id.truthy = true) →
      (t.nodes.map (fun r => JSId.key r.id)).Nodup →
      (NodeView.updateView prune s a b).state.renderedNodes.length
        = t.nodes.length ∧
      (NodeView.updateView prune s a b).state.renderedLinks.length
        = t.nodes.length - 1) ∧
    (prune (regLookup s.nodeData a) = none →
      (NodeView.updateView prune s a b).state.renderedNodes = [] ∧
      (NodeView.updateView prune s a b).state.renderedLinks = []) := by
  rw [updateView_ok prune s a b ori refRec ho href]
  constructor
  · intro t hp htruthy hnd
    rw [renderOk_state_renderedNodes, renderOk_state_renderedLinks, hp]
    have ha := assignId_eq_self t htruthy s.nextId
    have hl : laidList s.nextId (some t) = (t.nodes, s.nextId) := by
      simp [laidList, ha]
    rw [hl]
    constructor
    · show (dedupFirst (t.nodes.map (fun r => JSId.key r.id))).length = _
      rw [dedupFirst_of_nodup _ hnd, List.length_map]
    · show (dedupFirst ((linkPairs t.nodes).map
        (fun p => JSId.key p.2.id))).length = _
      rw [linkTargets_key_eq]
      have hperm := (tree_children_perm t).map (fun r => JSId.key r.id)
      rw [List.map_append] at hperm
      have hnd2 : ((t.nodes.flatMap NodeRecord.children).map
          (fun r => JSId.key r.id)).Nodup :=
        List.Nodup.of_append_left (hperm.nodup_iff.mpr hnd)
      rw [dedupFirst_of_nodup _ hnd2]
      have hlen := hperm.length_eq
      rw [List.length_append] at hlen
      simp only [List.length_map, List.length_cons, List.length_nil] at hlen ⊢
      omega
  · intro hp
    rw [renderOk_state_renderedNodes, renderOk_state_renderedLinks, hp]
    exact ⟨rfl, rfl⟩

/-- Witness for c2_render_counts: a three-node pruned tree renders three
node elements and two link elements. -/
theorem c2_render_counts_witness :
    (NodeView.updateView (fun _ => some treeABC)
        (sampleState [("A", recA)] (some (JSId.str "A")))
        (some (JSId.str "A")) none).state.renderedNodes.length = 3 ∧
    (NodeView.updateView (fun _ => some treeABC)
        (sampleState [("A", recA)] (some (JSId.str "A")))
        (some (JSId.str "A")) none).state.renderedLinks.length = 2 := by
  have h := (c2_render_counts (fun _ => some treeABC)
    (sampleState [("A", recA)] (some (JSId.str "A")))
    (some (JSId.str "A")) none Orient.topToBottom recA rfl rfl).1
    treeABC rfl (by decide) (by decide)
  exact ⟨h.1.trans (by rfl), h.2.trans (by rfl)⟩
